import Mathlib

/-!
Verification of the waypoint/landmark index engine of the
`obsidian-markdown-dataview` plugin (`src/main.ts`).

The plugin maintains auto-generated markdown index tables inside folder
notes.  Text is modelled line-wise: a note is a `List String` of its lines
(the source always does `text.split("\n")` before operating and
`lines.join("\n")` after, so the line list is a faithful representation).
Host services (the RegExp engine, `Date`, the metadata cache, vault path
lookups) are modelled as an explicit environment of functions, mirroring
the external collaborators of the plugin.
-/

/-- Boolean substring test on character lists.  Models JavaScript
`String.prototype.includes`: `listContains pat l` is true iff `pat` occurs
as a contiguous infix of `l` (the empty pattern always occurs). -/
def listContains (pat : List Char) : List Char → Bool
  | [] => pat.isEmpty
  | c :: rest => pat.isPrefixOf (c :: rest) || listContains pat rest

/-- Substring test on strings, models `s.includes(pat)` in JavaScript. -/
def strContains (s pat : String) : Bool :=
  listContains pat.data s.data

/-- Whitespace trimming, models `String.prototype.trim` (the notes only
ever contain ASCII whitespace, for which the JavaScript and Lean
whitespace classes agree).  Implemented structurally so that concrete
instances evaluate inside the kernel. -/
def jsTrim (s : String) : String :=
  ⟨((s.data.dropWhile Char.isWhitespace).reverse.dropWhile Char.isWhitespace).reverse⟩

/-- Prefix test, models `String.prototype.startsWith`. -/
def jsStartsWith (s pat : String) : Bool :=
  pat.data.isPrefixOf s.data

/-- Split a character list at newline characters (list of lines). -/
def splitLinesL : List Char → List (List Char)
  | [] => [[]]
  | c :: rest =>
    let r := splitLinesL rest
    if c = '\n' then [] :: r
    else
      match r with
      | [] => [[c]]
      | h :: t => (c :: h) :: t

/-- Models `text.split("\n")` from JavaScript: the list of lines of a
string, keeping empty segments (a trailing newline yields a final `""`). -/
def splitLines (s : String) : List String :=
  (splitLinesL s.data).map (fun l => ⟨l⟩)

/-- Replace the first occurrence of `pat` by `repl`, models the
single-replacement semantics of JavaScript `String.prototype.replace`
with a string pattern. -/
def listReplaceFirst (pat repl : List Char) : List Char → List Char
  | [] => []
  | c :: rest =>
    if pat.isPrefixOf (c :: rest) then repl ++ (c :: rest).drop pat.length
    else c :: listReplaceFirst pat repl rest

/-- String version of `listReplaceFirst`; models `v.replace(pat, repl)`. -/
def strReplaceFirst (s pat repl : String) : String :=
  ⟨listReplaceFirst pat.data repl.data s.data⟩

/-- The two marker kinds of the plugin (`enum WaypointType`). -/
inductive WaypointType where
  | waypoint
  | landmark
  deriving DecidableEq, Repr

/-- The plugin settings (`interface WaypointSettings`). -/
structure WaypointSettings where
  waypointFlag : String
  landmarkFlag : String
  stopScanAtFolderNotes : Bool
  showFolderNotes : Bool
  showNonMarkdownFiles : Bool
  debugLogging : Bool
  useWikiLinks : Bool
  useFrontMatterTitle : Bool
  showEnclosingNote : Bool
  folderNoteType : String
  folderNoteName : String
  ignorePaths : List String
  useSpaces : Bool
  numSpaces : Nat
  deriving Repr

/-- The `FolderNoteType.InsideFolder` enumeration value. -/
def INSIDE_FOLDER : String := "INSIDE_FOLDER"

/-- Source constant `DEFAULT_SETTINGS`. -/
def DEFAULT_SETTINGS : WaypointSettings :=
  { waypointFlag := "%% Waypoint %%"
    landmarkFlag := "%% Landmark %%"
    stopScanAtFolderNotes := false
    showFolderNotes := false
    showNonMarkdownFiles := false
    debugLogging := false
    useWikiLinks := true
    useFrontMatterTitle := false
    showEnclosingNote := false
    folderNoteType := INSIDE_FOLDER
    folderNoteName := ""
    ignorePaths := ["_attachments"]
    useSpaces := false
    numSpaces := 2 }

/-- Source constant `Waypoint.BEGIN_WAYPOINT`. -/
def BEGIN_WAYPOINT : String := "%% Begin Waypoint %%"

/-- Source constant `Waypoint.END_WAYPOINT`. -/
def END_WAYPOINT : String := "%% End Waypoint %%"

/-- Source constant `Waypoint.BEGIN_LANDMARK`. -/
def BEGIN_LANDMARK : String := "%% Begin Landmark %%"

/-- Source constant `Waypoint.END_LANDMARK`. -/
def END_LANDMARK : String := "%% End Landmark %%"

/-- First component of `getWaypointBounds`: the begin delimiter of a kind. -/
def beginOf : WaypointType → String
  | .waypoint => BEGIN_WAYPOINT
  | .landmark => BEGIN_LANDMARK

/-- Second component of `getWaypointBounds`: the end delimiter of a kind. -/
def endOf : WaypointType → String
  | .waypoint => END_WAYPOINT
  | .landmark => END_LANDMARK

/-- The string value of the `WaypointType` enum member (used in log and
error messages, e.g. `"waypoint"`). -/
def typeName : WaypointType → String
  | .waypoint => "waypoint"
  | .landmark => "landmark"

/-- Source function `getWaypointFlag`: the configured trigger flag of a kind. -/
def getWaypointFlag (cfg : WaypointSettings) : WaypointType → String
  | .waypoint => cfg.waypointFlag
  | .landmark => cfg.landmarkFlag

/-- The start-line predicate of the bounds scan in `updateWaypoint`:
`trimmed.includes(waypointFlag) || trimmed.includes(beginWaypoint)`. -/
def startPred (flag beginW : String) (l : String) : Bool :=
  strContains (jsTrim l) flag || strContains (jsTrim l) beginW

/-- Index (and content) of the first line satisfying `p`; models the
first half of the scan loop in `updateWaypoint` (guarded by
`waypointStart === -1`). -/
def findStart (p : String → Bool) : List String → Option (Nat × String)
  | [] => none
  | l :: ls =>
    if p l then some (0, l)
    else (findStart p ls).map (fun r => (r.1 + 1, r.2))

/-- Index of the first line whose trimmed content equals the end
delimiter; models the second half of the scan loop
(`trimmed === endWaypoint`). -/
def findEndIdx (endW : String) : List String → Option Nat
  | [] => none
  | l :: ls =>
    if jsTrim l == endW then some 0
    else (findEndIdx endW ls).map (fun j => j + 1)

/-- The callout label line: `"[!waypoint]\n"` resp. `"[!landmark]\n"` in
the source, which after the final `split`/`join` round-trip is exactly one
extra line in front of the block. -/
def calloutLabel : WaypointType → String
  | .waypoint => "[!waypoint]"
  | .landmark => "[!landmark]"

/-- The freshly generated block
`` `${beginWaypoint}\n${fileTree}\n\n${endWaypoint}` `` as a line list,
with the rendered tree already split into lines (the delimiter constants
contain no newline). -/
def waypointBlock (ft : WaypointType) (treeLines : List String) : List String :=
  beginOf ft :: treeLines ++ ["", endOf ft]

/-- The block text spliced in by `updateWaypoint`, as a function of the
located start line `s`: the fresh block, preceded by the callout label
when `s` was the raw trigger flag inside a callout, and with every line
prefixed by `">"` when `s` was inside a callout. -/
def emittedBlock (ft : WaypointType) (flag : String) (treeLines : List String)
    (s : String) : List String :=
  if jsStartsWith (jsTrim s) ">" then
    (if strContains (jsTrim s) flag then calloutLabel ft :: waypointBlock ft treeLines
     else waypointBlock ft treeLines).map (fun l => ">" ++ l)
  else waypointBlock ft treeLines

/-- Pure text transformation performed by `updateWaypoint` (lines 244-281
of the source) once the file tree has been rendered: locate the start line
(first line whose trimmed text contains the flag or the begin delimiter),
locate the end line (first later line whose trimmed text equals the end
delimiter), build the new block (callout label when the start line was the
raw flag inside a callout, `">"` prefix on every line when the start line
was a callout), and splice it over the located range
(`lines.splice(waypointStart, end === -1 ? 1 : end - start + 1, waypoint)`).
Returns `none` when no start line exists (the source logs an error and
leaves the note untouched). -/
def updateWaypointCore (ft : WaypointType) (flag : String) (treeLines : List String)
    (lines : List String) : Option (List String) :=
  match findStart (startPred flag (beginOf ft)) lines with
  | none => none
  | some (i, s) =>
    let endIdx := (findEndIdx (endOf ft) (lines.drop (i + 1))).map (fun j => i + 1 + j)
    let block := emittedBlock ft flag treeLines s
    let deleteCount := match endIdx with | some e => e - i + 1 | none => 1
    some (lines.take i ++ block ++ lines.drop (i + deleteCount))

/-- Wrapper of `updateWaypoint` over the render result as produced by
`getFileTreeRepresentation`: a `null` result (`none`) is interpolated into
the template literal as the string `"null"`. -/
def updateWaypointText (ft : WaypointType) (flag : String) (fileTree : Option String)
    (lines : List String) : Option (List String) :=
  updateWaypointCore ft flag (splitLines (fileTree.getD "null")) lines

/-- Outcome of one `detectFlag` scan (lines 128-153): for the first line
whose trimmed text contains the configured trigger flag, the handler
either regenerates the waypoint (folder note), prints the root-folder
placement error, or prints the invalid-note placement error; with no flag
line the scan is a no-op. -/
inductive DetectAction where
  | updateWaypoint
  | printRootError
  | printInvalidError
  | noFlag
  deriving DecidableEq, Repr

/-- The branch taken by `detectFlag`, driven by the first flag-bearing
line and the two file predicates `isFolderNote(file)` and
`file.parent.isRoot()`. -/
def detectFlagAction (isFN parentIsRoot : Bool) (flag : String) :
    List String → DetectAction
  | [] => .noFlag
  | l :: ls =>
    if strContains (jsTrim l) flag then
      if isFN then .updateWaypoint
      else if parentIsRoot then .printRootError
      else .printInvalidError
    else detectFlagAction isFN parentIsRoot flag ls

/-- The inline error comment written for a flag found in the vault root. -/
def rootErrorMsg (ft : WaypointType) : String :=
  "%% Error: Cannot create a " ++ typeName ft ++
    " in the root folder of your vault. For more information, check the instructions [here](https://github.com/IdreesInc/Waypoint) %%"

/-- The inline error comment written for a flag found in a note that is
not the folder note. -/
def invalidNoteErrorMsg (ft : WaypointType) : String :=
  "%% Error: Cannot create a " ++ typeName ft ++
    " in a note that's not the folder note. For more information, check the instructions [here](https://github.com/IdreesInc/Waypoint) %%"

/-- The index-locating loop of `printError` (lines 180-187): the loop has
no `break`, so `waypointIndex` ends up at the LAST line whose trimmed text
contains the flag. -/
def lastFlagIdxAux (flag : String) : List String → Nat → Option Nat → Option Nat
  | [], _, acc => acc
  | l :: ls, i, acc =>
    lastFlagIdxAux flag ls (i + 1)
      (if strContains (jsTrim l) flag then some i else acc)

/-- Index assigned to `waypointIndex` by the scan in `printError`. -/
def lastFlagIdx (flag : String) (lines : List String) : Option Nat :=
  lastFlagIdxAux flag lines 0 none

/-- Source function `printError` (lines 176-194): replace the located line by the error
comment (`lines.splice(waypointIndex, 1, error)`); `none` when no flag
line exists (the source only logs in that case). -/
def printErrorLines (flag err : String) (lines : List String) :
    Option (List String) :=
  match lastFlagIdx flag lines with
  | none => none
  | some i => some (lines.take i ++ err :: lines.drop (i + 1))

/-- Value of a front-matter field as used by the renderer.  Arrays appear
in this plugin as arrays of strings (declared column keys, tags, custom
column values), so they are modelled as `List String`. -/
inductive FmVal where
  | str (s : String)
  | num (n : Int)
  | boolv (b : Bool)
  | arr (vs : List String)
  deriving DecidableEq, Repr

/-- JavaScript truthiness of a front-matter value (`""` and `0` are
falsy; arrays are always truthy). -/
def fmTruthy : FmVal → Bool
  | .str s => !(s == "")
  | .num n => !(n == 0)
  | .boolv b => b
  | .arr _ => true

/-- JavaScript string coercion of a front-matter value, as performed by
template-literal interpolation (arrays join with a comma). -/
def fmValToString : FmVal → String
  | .str s => s
  | .num n => toString n
  | .boolv b => if b then "true" else "false"
  | .arr vs => String.intercalate "," vs

/-- Front-matter field lookup (`f.hasOwnProperty(key)` plus `f[key]`). -/
def fmGet (fm : List (String × FmVal)) (k : String) : Option FmVal :=
  (fm.find? (fun p => p.1 == k)).map (fun p => p.2)

/-- Whether a node is a file or a folder (`TFile` vs `TFolder`). -/
inductive NodeKind where
  | file
  | folder
  deriving DecidableEq, Repr

/-- A vault node as the engine sees it (`TAbstractFile`): `name` carries
the extension for files, `basename` does not; `ctime` models
`stat?.ctime` and is `none` when absent (always for folders); `hasParent`
and `isRoot` model the `parent` back-reference and `isRoot()`. -/
structure Child where
  kind : NodeKind
  name : String
  basename : String := ""
  extension : String := ""
  path : String
  hasParent : Bool := true
  isRoot : Bool := false
  ctime : Option Nat := none
  deriving DecidableEq, Repr

/-- The host services consumed by the engine: the RegExp engine (`none`
models the `new RegExp` constructor throwing on a malformed pattern, a
compiled pattern is its boolean match function), the metadata cache
(front matter of a file), `Date` decomposition of a date argument into
`getFullYear`, `getMonth` (zero based), `getDate` and `getDay`, and the
vault lookup telling whether a path resolves to a folder. -/
structure Env where
  regex : String → Option (String → Bool)
  fm : Child → Option (List (String × FmVal))
  dateParts : FmVal → Int × Int × Int × Int
  isFolderAt : String → Bool
  isFileAt : String → Bool

/-- One step of the `forEach` loop of `ignorePath` (lines 558-575): empty
patterns are skipped, a malformed pattern aborts the whole call with the
exception of the constructor (`Except.error`), a match sets the `found` flag
but scanning still continues over the remaining patterns. -/
def ignorePathGo (env : Env) (path : String) :
    List String → Bool → Except Unit Bool
  | [], found => .ok found
  | p :: ps, found =>
    if p == "" then ignorePathGo env path ps found
    else
      match env.regex p with
      | none => .error ()
      | some m => ignorePathGo env path ps (found || m path)

/-- Source function `ignorePath`: whether a path matches any configured ignore pattern. -/
def ignorePath (env : Env) (cfg : WaypointSettings) (path : String) :
    Except Unit Bool :=
  ignorePathGo env path cfg.ignorePaths false

/-- The identity of a note as needed by `isFolderNote`: its base name and
its parent folder.  The vault root has `name = ""` in the host API. -/
structure NoteCtx where
  basename : String
  hasParent : Bool := true
  parentIsRoot : Bool := false
  parentName : String := ""
  parentPath : String := ""
  deriving DecidableEq, Repr

/-- Source function `getCleanParentPath` (lines 169-174). -/
def getCleanParentPath (n : NoteCtx) : String :=
  if n.parentIsRoot then "" else n.parentPath ++ "/"

/-- Source function `isFolderNote` (lines 155-167): in Inside mode the base name is
compared against the parent folder name, or against the configured
override name when one is set (note: the override comparison never looks
at the parent).  In the reserved Outside mode a sibling folder of the
same base name is looked up. -/
def isFolderNote (env : Env) (cfg : WaypointSettings) (f : NoteCtx) : Bool :=
  if cfg.folderNoteType == INSIDE_FOLDER then
    if cfg.folderNoteName == "" then f.basename == f.parentName
    else f.basename == cfg.folderNoteName
  else if f.hasParent then
    env.isFolderAt (getCleanParentPath f ++ f.basename)
  else false

/-- The `NoteCtx` of a child of the folder `node`. -/
def childCtx (node c : Child) : NoteCtx :=
  { basename := c.basename
    hasParent := true
    parentIsRoot := node.isRoot
    parentName := node.name
    parentPath := node.path }

/-- A folder as the folder-note resolver sees it: its name, its path and
its parent reference.  The vault root has path `"/"`, the empty name and
no parent in the host API. -/
structure FolderCtx where
  name : String
  path : String
  hasParent : Bool := true
  parentIsRoot : Bool := false
  parentPath : String := ""
  deriving DecidableEq, Repr

/-- The `NoteCtx` view of a folder, as fed to `getCleanParentPath` by the
Outside-mode branch of the resolver. -/
def folderCtxAsNote (f : FolderCtx) : NoteCtx :=
  { basename := f.name
    hasParent := f.hasParent
    parentIsRoot := f.parentIsRoot
    parentName := ""
    parentPath := f.parentPath }

/-- The vault root folder as the host API presents it. -/
def rootFolder : FolderCtx :=
  { name := "", path := "/", hasParent := false }

/-- The per-folder note lookup performed inline by `locateParentPoint`
(lines 619-625) — the `folderNoteFor` operation of the specification: in
Inside mode the file at `folder.path + "/" + folder.name + ".md"`, in the
reserved Outside mode the sibling file at
`getCleanParentPath(folder) + folder.name + ".md"` (nothing when the
folder has no parent).  The result is the resolved path when the vault
resolves it to a file (`folderNote instanceof TFile`), else `none`. -/
def folderNoteFor (env : Env) (cfg : WaypointSettings) (folder : FolderCtx) :
    Option String :=
  if cfg.folderNoteType == INSIDE_FOLDER then
    let p := folder.path ++ "/" ++ folder.name ++ ".md"
    if env.isFileAt p then some p else none
  else if folder.hasParent then
    let p := getCleanParentPath (folderCtxAsNote folder) ++ folder.name ++ ".md"
    if env.isFileAt p then some p else none
  else none

/-- JavaScript falsiness of `a.stat?.ctime`: the field is absent, or it
is `0`. -/
def ctimeFalsy (c : Child) : Bool :=
  match c.ctime with
  | none => true
  | some n => n == 0

/-- The sort comparator of `getFileTreeRepresentation` (lines 350-355);
`new Date(t).getTime()` is the identity on a millisecond timestamp. -/
def childCmp (a b : Child) : Int :=
  if ctimeFalsy a then -1
  else if ctimeFalsy b then 1
  else (b.ctime.getD 0 : Int) - (a.ctime.getD 0 : Int)

/-- JavaScript `Array.prototype.sort` orders `a` before `b` when the comparator is
negative and keeps the original order of elements the comparator does not
separate (stability); modelled by ordering on the non-positive comparator
results. -/
def childLe (a b : Child) : Bool :=
  decide (childCmp a b ≤ 0)

/-- Stable insertion of `a` into an already sorted list: `a` is placed
before the first element it compares no greater than. -/
def insertSorted (le : Child → Child → Bool) (a : Child) :
    List Child → List Child
  | [] => [a]
  | b :: l => if le a b then a :: b :: l else b :: insertSorted le a l

/-- The sorted copy `[...node.children].sort(...)` (lines 349-355),
modelled as a stable insertion sort with the comparator of the source. -/
def sortChildren : List Child → List Child
  | [] => []
  | a :: l => insertSorted childLe a (sortChildren l)

/-- The per-child filter loop of `getFileTreeRepresentation` (lines
358-375): ignored children are dropped, a file that is a folder note is
remembered (last one wins) and dropped unless `showFolderNotes` is set,
everything else is kept in order. -/
def filterChildren (env : Env) (cfg : WaypointSettings) (node : Child)
    (fn : Option Child) : List Child → Except Unit (List Child × Option Child)
  | [] => .ok ([], fn)
  | c :: cs => do
    if (← ignorePath env cfg c.path) then
      filterChildren env cfg node fn cs
    else if c.kind == NodeKind.file && isFolderNote env cfg (childCtx node c) then
      if cfg.showFolderNotes then
        let (r, f) ← filterChildren env cfg node (some c) cs
        .ok (c :: r, f)
      else filterChildren env cfg node (some c) cs
    else
      let (r, f) ← filterChildren env cfg node fn cs
      .ok (c :: r, f)

/-- Replace every occurrence of the character `c` by `repl`; models
`path.replaceAll(" ", "%20")`. -/
def jsReplaceAllChar (s : String) (c : Char) (repl : String) : String :=
  ⟨(s.data.map (fun x => if x = c then repl.data else [x])).flatten⟩

/-- Truthy front-matter field access `f?.[k]` followed by an `if` test:
`some v` exactly when the field exists and its value is truthy. -/
def fmTruthyGet (f : Option (List (String × FmVal))) (k : String) : Option FmVal :=
  match f.bind (fun fm => fmGet fm k) with
  | some v => if fmTruthy v then some v else none
  | none => none

/-- The argument handed to `new Date(...)` by the DATE cell (lines
464-469): the first truthy one of `f?.DATE`, `f?.Date`, `f?.date`, else
the file creation time, else the empty string (`ctime ?? ""`). -/
def dateArg (f : Option (List (String × FmVal))) (c : Child) : FmVal :=
  match fmTruthyGet f "DATE" with
  | some v => v
  | none =>
    match fmTruthyGet f "Date" with
    | some v => v
    | none =>
      match fmTruthyGet f "date" with
      | some v => v
      | none =>
        match c.ctime with
        | some n => .num (n : Int)
        | none => .str ""

/-- Source function `convertDay` (lines 510-521): Korean day-of-week names. -/
def convertDay (dt : Int) : String :=
  if dt = 0 then "일"
  else if dt = 1 then "월"
  else if dt = 2 then "화"
  else if dt = 3 then "수"
  else if dt = 4 then "목"
  else if dt = 5 then "금"
  else if dt = 6 then "토"
  else ""

/-- Source function `addZero` (lines 523-530): left-pad a one-digit number with `0`. -/
def addZero (dt : Int) : String :=
  let dtStr := toString dt
  if dtStr.data.length = 1 then "0" ++ dtStr else dtStr

/-- Source function `convertLink` (lines 532-541).  The `v === "[["` comparison inside
the long-string branch is kept although it can never hit (a two-character
string has length 2); the `v === null` test there is unrepresentable for
a string value and short or non-string values fall through to
`String(v)`. -/
def convertLink (v : FmVal) (k : String) : String :=
  match v with
  | .str s =>
    if s.data.length > 12 then
      if s == "[[" then ""
      else if jsStartsWith s "[[" then strReplaceFirst s "]]" ("\\|" ++ k ++ "]]")
      else if jsStartsWith s "https://" || jsStartsWith s "http://" then
        "[" ++ k ++ "](" ++ s ++ ")"
      else s
    else s
  | v => fmValToString v

/-- One table cell of a row (the `switch` of lines 421-502), given the
front matter `f` of the child (`none` for folders). -/
def renderCell (env : Env) (cfg : WaypointSettings) (node c : Child)
    (f : Option (List (String × FmVal))) (key : String) : String :=
  if key == "TITLE" || key == "Title" || key == "title" then
    match c.kind with
    | .file =>
      let name0 := if c.extension == "md" then c.basename else c.name
      let name :=
        if cfg.useFrontMatterTitle then
          match f.bind (fun fm => fmGet fm "title") with
          | some v => fmValToString v
          | none => name0
        else name0
      if cfg.useWikiLinks then "|[[" ++ c.path ++ "\\|" ++ name ++ "]]"
      else "|[" ++ name ++ "](" ++ jsReplaceAllChar c.path ' ' "%20" ++ ")"
    | .folder =>
      let path :=
        if cfg.folderNoteType == INSIDE_FOLDER then
          if cfg.folderNoteName == "" then c.path ++ "/" ++ c.name ++ ".md"
          else c.path ++ "/" ++ cfg.folderNoteName ++ ".md"
        else if node.hasParent then
          if cfg.folderNoteName == "" then c.path ++ "/" ++ c.name ++ ".md"
          else c.path ++ "/" ++ cfg.folderNoteName ++ ".md"
        else ""
      if cfg.useWikiLinks then "|[[" ++ path ++ "\\|" ++ c.name ++ "]]"
      else "|[" ++ c.name ++ "](" ++ jsReplaceAllChar path ' ' "%20" ++ ")"
  else if key == "DATE" || key == "Date" || key == "date" then
    match c.kind with
    | .file =>
      let p := env.dateParts (dateArg f c)
      "|" ++ toString p.1 ++ "-" ++ addZero (p.2.1 + 1) ++ "-" ++
        addZero p.2.2.1 ++ " (" ++ convertDay p.2.2.2 ++ ")"
    | .folder => "|"
  else if key == "tags" then
    match f.bind (fun fm => fmGet fm key) with
    | some v =>
      "|" ++ (match v with
              | .arr vs => String.intercalate " " vs
              | v => fmValToString v)
    | none => "|"
  else
    match f.bind (fun fm => fmGet fm key) with
    | some v =>
      let val :=
        match v with
        | .arr vs => String.intercalate ", " (vs.map (fun x => convertLink (.str x) key))
        | v => convertLink v key
      "|" ++ val
    | none => "|"

/-- One table row (lines 411-505): the cells for every key, closed by
`"|\n"`. -/
def renderRow (env : Env) (cfg : WaypointSettings) (node c : Child)
    (keyList : List String) : String :=
  let f := if c.kind == NodeKind.file then env.fm c else none
  String.join (keyList.map (renderCell env cfg node c f)) ++ "|\n"

/-- The declared extra column keys: `frontmatter.keys` when it is an
array (lines 393-406). -/
def keysOf (f : Option (List (String × FmVal))) : List String :=
  match f.bind (fun fm => fmGet fm "keys") with
  | some (.arr vs) => vs
  | _ => []

/-- The new-file / new-folder navigation line (lines 378-390). -/
def navPart (cfg : WaypointSettings) (node : Child) : String :=
  if cfg.folderNoteType == INSIDE_FOLDER then
    if cfg.useWikiLinks then
      "\n[[" ++ node.path ++ "/new file.md\\|new file]] | [[" ++ node.path ++
        "/new folder/new folder.md\\|new folder]]\n"
    else
      "\n[new file](" ++ node.path ++ "/new file.md) | [new folder](" ++
        node.path ++ "/new folder/README.md)\n"
  else if node.hasParent then
    "\n[[" ++ node.path ++ "/new file.md\\|new file]]\n"
  else ""

/-- Source function `getFileTreeRepresentation` (lines 292-509): `none` models a `null`
return (ignored node); otherwise the heading, the navigation line, the
table header derived from the front matter of the folder note (or node),
and one row per sorted, filtered child.  The `instanceof` guard on the
argument is vacuous here because every modelled node is a file or a
folder; `node.children` is passed in as `children`. -/
def getFileTreeRepresentation (env : Env) (cfg : WaypointSettings)
    (rootNode node : Child) (children : List Child) :
    Except Unit (Option String) := do
  if (← ignorePath env cfg node.path) then
    return none
  let sorted := sortChildren children
  let (filtered, folderNote) ← filterChildren env cfg node none sorted
  let f := env.fm (folderNote.getD node)
  let keyList := ["TITLE", "DATE"] ++ keysOf f
  let dash := ["---", "---"] ++ (keysOf f).map (fun _ => "---")
  let out := "# " ++ rootNode.name
  let out := out ++ navPart cfg node
  let out := out ++ "\n|" ++ String.intercalate "|" keyList ++ "|\n|" ++
    String.intercalate "|" dash ++ "|\n"
  let out := out ++ String.join (filtered.map (fun c => renderRow env cfg node c keyList))
  return some out

/-- Source function `updateWaypoint` (lines 226-282) in the exposed Inside mode: render
the parent folder of the note (as both root node and current node), then
splice the result into the note text.  The render call can only fail by
the exception of a malformed ignore pattern, which propagates. -/
def updateWaypointRun (env : Env) (cfg : WaypointSettings) (ft : WaypointType)
    (parent : Child) (children : List Child) (lines : List String) :
    Except Unit (Option (List String)) := do
  let fileTree ← getFileTreeRepresentation env cfg parent parent children
  .ok (updateWaypointText ft (getWaypointFlag cfg ft) fileTree lines)

/-- A folder as the reversed list of its path segments: `[]` is the vault
root and `s :: r` is the subfolder named `s` of the folder `r`; the
parent reference of the root is `null`. -/
def folderParent : List String → Option (List String)
  | [] => none
  | _ :: r => some r

/-- The marker test `locateParentPoint` applies to the text of one folder note
(lines 626-637): an existing waypoint begin delimiter or waypoint trigger
flag wins over a landmark one.  `text.includes(s)` for a newline-free `s`
holds iff some line contains `s`. -/
def folderPointType (cfg : WaypointSettings) (noteText : Option (List String)) :
    Option WaypointType :=
  match noteText with
  | none => none
  | some text =>
    if text.any (fun l => strContains l BEGIN_WAYPOINT) ||
        text.any (fun l => strContains l cfg.waypointFlag) then some .waypoint
    else if text.any (fun l => strContains l BEGIN_LANDMARK) ||
        text.any (fun l => strContains l cfg.landmarkFlag) then some .landmark
    else none

/-- The `while (folder)` walk of `locateParentPoint` (lines 614-642):
the nearest ancestor folder (the starting folder included) whose folder
note carries a marker.  `note` maps a folder to the text of its folder note
when that note exists (the `folder.path + "/" + folder.name + ".md"`
vault lookup of the source). -/
def locateFrom (note : List String → Option (List String))
    (cfg : WaypointSettings) : List String → Option (WaypointType × List String)
  | [] =>
    match folderPointType cfg (note []) with
    | some t => some (t, [])
    | none => none
  | s :: r =>
    match folderPointType cfg (note (s :: r)) with
    | some t => some (t, s :: r)
    | none => locateFrom note cfg r

/-- Source function `locateParentPoint(node, includeCurrentNode)` on a folder argument:
start at the folder itself or at its parent; `none` as folder models the
`null` parent of the vault root. -/
def locateParentPoint (note : List String → Option (List String))
    (cfg : WaypointSettings) (folder : Option (List String)) :
    Option (WaypointType × List String) :=
  folder.bind (locateFrom note cfg)

/-- The sequence of `(kind, folder)` updates performed by the recursion
of `updateParentPoint` (lines 599-606) starting at a folder: regenerate
the nearest marked ancestor, then continue from the parent of that folder
(the parent folder of the found note is the folder itself, Inside mode).
Structural on the ancestor chain; the theorem
`updateChainFrom_locate_eq` below shows it satisfies exactly the
locate-then-recurse equation of the source. -/
def updateChainFrom (note : List String → Option (List String))
    (cfg : WaypointSettings) : List String → List (WaypointType × List String)
  | [] =>
    match folderPointType cfg (note []) with
    | some t => [(t, [])]
    | none => []
  | s :: r =>
    match folderPointType cfg (note (s :: r)) with
    | some t => (t, s :: r) :: updateChainFrom note cfg r
    | none => updateChainFrom note cfg r

/-- Source function `updateParentPoint(node, includeCurrentNode)`: the updates performed
on the ancestor chain, starting at `node` itself or at its parent. -/
def updateParentPoint (note : List String → Option (List String))
    (cfg : WaypointSettings) (node : List String) (includeCurrentNode : Bool) :
    List (WaypointType × List String) :=
  match (if includeCurrentNode then some node else folderParent node) with
  | none => []
  | some f => updateChainFrom note cfg f

/-! ### Concrete host instances used by witnesses -/

/-- A host RegExp engine for concrete instances: literal patterns match
by substring containment (the behaviour of a metacharacter-free regular
expression), and the single pattern `"["` fails to compile, exactly as
the real constructor throws `SyntaxError` on it. -/
def witnessRegex (p : String) : Option (String → Bool) :=
  if p == "[" then none else some (fun s => strContains s p)

/-- A concrete host environment. -/
def witnessEnv : Env :=
  { regex := witnessRegex
    fm := fun _ => none
    dateParts := fun _ => (1970, 0, 1, 4)
    isFolderAt := fun _ => false
    isFileAt := fun _ => false }

/-- A markdown file child with creation time 100. -/
def fileA100 : Child :=
  { kind := .file, name := "A.md", basename := "A", extension := "md",
    path := "Projects/A.md", ctime := some 100 }

/-- A markdown file child with creation time 0 — a representable
millisecond timestamp (the epoch) that JavaScript treats as falsy. -/
def fileB0 : Child :=
  { kind := .file, name := "B.md", basename := "B", extension := "md",
    path := "Projects/B.md", ctime := some 0 }

/-- A note named `README` sitting directly in the vault root (the root
folder has the empty name and no parent). -/
def readmeInRoot : NoteCtx :=
  { basename := "README", hasParent := true, parentIsRoot := true,
    parentName := "", parentPath := "/" }

/-- The folder `_attachments`, matched by the default ignore pattern. -/
def attachmentsFolder : Child :=
  { kind := .folder, name := "_attachments", basename := "_attachments",
    path := "_attachments" }

/-! ### Helper lemmas -/

theorem findStart_spec (p : String → Bool) :
    ∀ (lines : List String) (i : Nat) (s : String),
      findStart p lines = some (i, s) →
      lines[i]? = some s ∧ p s = true ∧ ∀ x ∈ lines.take i, p x = false := by
  intro lines
  induction lines with
  | nil => intro i s h; simp [findStart] at h
  | cons l ls ih =>
    intro i s h
    by_cases hp : p l = true
    · simp [findStart, hp] at h
      obtain ⟨hi, hs⟩ := h
      subst hi; subst hs
      simp [hp]
    · have hp' : p l = false := by simpa using hp
      simp only [findStart, hp', Bool.false_eq_true, if_false] at h
      cases hfs : findStart p ls with
      | none => rw [hfs] at h; simp at h
      | some r =>
        obtain ⟨a, b⟩ := r
        rw [hfs] at h
        simp at h
        obtain ⟨hi, hs⟩ := h
        subst hi
        subst hs
        obtain ⟨h1, h2, h3⟩ := ih a b hfs
        refine ⟨by simpa using h1, h2, ?_⟩
        intro x hx
        rw [List.take_succ_cons] at hx
        rcases List.mem_cons.mp hx with rfl | hx
        · exact hp'
        · exact h3 x hx

theorem findStart_append (p : String → Bool) :
    ∀ (pre : List String) (s : String) (post : List String),
      (∀ x ∈ pre, p x = false) → p s = true →
      findStart p (pre ++ s :: post) = some (pre.length, s) := by
  intro pre
  induction pre with
  | nil => intro s post _ hs; simp [findStart, hs]
  | cons l pre ih =>
    intro s post hpre hs
    have hl : p l = false := hpre l (by simp)
    simp [findStart, hl, ih s post (fun x hx => hpre x (by simp [hx])) hs]

theorem findEndIdx_append (endW : String) :
    ∀ (pre : List String) (s : String) (post : List String),
      (∀ x ∈ pre, (jsTrim x == endW) = false) → (jsTrim s == endW) = true →
      findEndIdx endW (pre ++ s :: post) = some pre.length := by
  intro pre
  induction pre with
  | nil => intro s post _ hs; simp [findEndIdx, hs]
  | cons l pre ih =>
    intro s post hpre hs
    have hl : (jsTrim l == endW) = false := hpre l (by simp)
    simp [findEndIdx, hl, ih s post (fun x hx => hpre x (by simp [hx])) hs]

theorem startPred_beginOf (flag : String) (ft : WaypointType) :
    startPred flag (beginOf ft) (beginOf ft) = true := by
  have h : strContains (jsTrim (beginOf ft)) (beginOf ft) = true := by
    cases ft <;> decide
  simp [startPred, h]

theorem beginOf_not_callout (ft : WaypointType) :
    jsStartsWith (jsTrim (beginOf ft)) ">" = false := by
  cases ft <;> decide

theorem endOf_trim_beq (ft : WaypointType) :
    (jsTrim (endOf ft) == endOf ft) = true := by
  cases ft <;> decide

theorem blank_trim_ne_endOf (ft : WaypointType) :
    (jsTrim "" == endOf ft) = false := by
  cases ft <;> decide

theorem insertSorted_perm (le : Child → Child → Bool) (a : Child) :
    ∀ l, (insertSorted le a l).Perm (a :: l) := by
  intro l
  induction l with
  | nil => simp [insertSorted]
  | cons b l ih =>
    by_cases h : le a b = true
    · simp [insertSorted, h]
    · have h' : le a b = false := by simpa using h
      simp only [insertSorted, h', Bool.false_eq_true, if_false]
      exact (ih.cons b).trans (List.Perm.swap a b l)

theorem sortChildren_perm : ∀ cs, (sortChildren cs).Perm cs := by
  intro cs
  induction cs with
  | nil => simp [sortChildren]
  | cons a l ih => exact (insertSorted_perm childLe a (sortChildren l)).trans (ih.cons a)

theorem insertSorted_pairwise (le : Child → Child → Bool)
    (htot : ∀ a b, (le a b || le b a) = true)
    (htrans : ∀ a b c, le a b = true → le b c = true → le a c = true)
    (a : Child) :
    ∀ l, l.Pairwise (fun x y => le x y = true) →
      (insertSorted le a l).Pairwise (fun x y => le x y = true) := by
  intro l
  induction l with
  | nil => intro _; simp [insertSorted]
  | cons b l ih =>
    intro hp
    rw [List.pairwise_cons] at hp
    obtain ⟨hb, hl⟩ := hp
    by_cases h : le a b = true
    · simp only [insertSorted, h, if_true]
      rw [List.pairwise_cons]
      refine ⟨?_, List.pairwise_cons.mpr ⟨hb, hl⟩⟩
      intro y hy
      rcases List.mem_cons.mp hy with rfl | hy
      · exact h
      · exact htrans a b y h (hb y hy)
    · have h' : le a b = false := by simpa using h
      have hba : le b a = true := by
        have := htot a b
        rw [h'] at this
        simpa using this
      simp only [insertSorted, h', Bool.false_eq_true, if_false]
      rw [List.pairwise_cons]
      refine ⟨?_, ih hl⟩
      intro y hy
      rcases List.mem_cons.mp ((insertSorted_perm le a l).mem_iff.mp hy) with rfl | hy
      · exact hba
      · exact hb y hy

theorem childLe_total (a b : Child) : (childLe a b || childLe b a) = true := by
  simp only [childLe, childCmp, decide_eq_true_eq, Bool.or_eq_true]
  cases hfa : ctimeFalsy a <;> cases hfb : ctimeFalsy b <;> (simp; try omega)

theorem childLe_trans (a b c : Child) (hab : childLe a b = true)
    (hbc : childLe b c = true) : childLe a c = true := by
  simp only [childLe, childCmp, decide_eq_true_eq] at hab hbc ⊢
  cases hfa : ctimeFalsy a <;> cases hfb : ctimeFalsy b <;>
    cases hfc : ctimeFalsy c <;>
    (simp [hfa, hfb, hfc] at hab hbc ⊢; try omega)

theorem sortChildren_pairwise :
    ∀ cs, (sortChildren cs).Pairwise (fun x y => childLe x y = true) := by
  intro cs
  induction cs with
  | nil => simp [sortChildren]
  | cons a l ih =>
    exact insertSorted_pairwise childLe childLe_total childLe_trans a (sortChildren l) ih

theorem lastFlagIdxAux_spec (flag : String) :
    ∀ (ls : List String) (i : Nat) (acc : Option Nat),
      (lastFlagIdxAux flag ls i acc = acc ∧
        ∀ (j : Nat) (l : String), ls[j]? = some l →
          strContains (jsTrim l) flag = false) ∨
      (∃ (j : Nat) (l : String), lastFlagIdxAux flag ls i acc = some (i + j) ∧
        ls[j]? = some l ∧ strContains (jsTrim l) flag = true ∧
        ∀ (j2 : Nat) (l2 : String), j < j2 → ls[j2]? = some l2 →
          strContains (jsTrim l2) flag = false) := by
  intro ls
  induction ls with
  | nil =>
    intro i acc
    left
    constructor
    · rfl
    · intro j l hj; simp at hj
  | cons l ls ih =>
    intro i acc
    by_cases hp : strContains (jsTrim l) flag = true
    · right
      rcases ih (i + 1) (some i) with ⟨h1, h2⟩ | ⟨j, l2, h1, h2, h3, h4⟩
      · refine ⟨0, l, ?_, by simp, hp, ?_⟩
        · simpa [lastFlagIdxAux, hp] using h1
        · intro j2 x hj2 hx
          cases j2 with
          | zero => omega
          | succ j3 => exact h2 j3 x (by simpa using hx)
      · refine ⟨j + 1, l2, ?_, by simpa using h2, h3, ?_⟩
        · rw [show i + (j + 1) = i + 1 + j by omega]
          simpa [lastFlagIdxAux, hp] using h1
        · intro j2 x hj2 hx
          cases j2 with
          | zero => omega
          | succ j3 => exact h4 j3 x (by omega) (by simpa using hx)
    · have hp' : strContains (jsTrim l) flag = false := by simpa using hp
      rcases ih (i + 1) acc with ⟨h1, h2⟩ | ⟨j, l2, h1, h2, h3, h4⟩
      · left
        constructor
        · simpa [lastFlagIdxAux, hp'] using h1
        · intro j x hj
          cases j with
          | zero => simp at hj; subst hj; exact hp'
          | succ j3 => exact h2 j3 x (by simpa using hj)
      · right
        refine ⟨j + 1, l2, ?_, by simpa using h2, h3, ?_⟩
        · rw [show i + (j + 1) = i + 1 + j by omega]
          simpa [lastFlagIdxAux, hp'] using h1
        · intro j2 x hj2 hx
          cases j2 with
          | zero => omega
          | succ j3 => exact h4 j3 x (by omega) (by simpa using hx)

theorem lastFlagIdx_of_any (flag : String) (lines : List String)
    (h : lines.any (fun l => strContains (jsTrim l) flag) = true) :
    ∃ (i : Nat) (l : String), lastFlagIdx flag lines = some i ∧
      lines[i]? = some l ∧ strContains (jsTrim l) flag = true ∧
      ∀ (j2 : Nat) (l2 : String), i < j2 → lines[j2]? = some l2 →
        strContains (jsTrim l2) flag = false := by
  rcases lastFlagIdxAux_spec flag lines 0 none with ⟨_, h2⟩ | ⟨j, l, h1, h2, h3, h4⟩
  · exfalso
    rw [List.any_eq_true] at h
    obtain ⟨x, hx, hpx⟩ := h
    obtain ⟨j, hjlt, hjx⟩ := List.getElem_of_mem hx
    have hx' : lines[j]? = some x := by
      rw [List.getElem?_eq_getElem hjlt, hjx]
    have := h2 j x hx'
    simp only [this] at hpx
    exact Bool.false_ne_true hpx
  · exact ⟨j, l, by simpa [lastFlagIdx] using h1, h2, h3, h4⟩

theorem detectFlagAction_of_any (isFN parentIsRoot : Bool) (flag : String) :
    ∀ lines, lines.any (fun l => strContains (jsTrim l) flag) = true →
      detectFlagAction isFN parentIsRoot flag lines =
        (if isFN then .updateWaypoint
         else if parentIsRoot then .printRootError
         else .printInvalidError) := by
  intro lines
  induction lines with
  | nil => intro h; simp at h
  | cons l ls ih =>
    intro h
    by_cases hp : strContains (jsTrim l) flag = true
    · simp [detectFlagAction, hp]
    · have hp' : strContains (jsTrim l) flag = false := by simpa using hp
      have hany : ls.any (fun l => strContains (jsTrim l) flag) = true := by
        simpa [hp'] using h
      simp [detectFlagAction, hp', ih hany]

theorem ignorePathGo_ok (env : Env) (path : String) :
    ∀ (ps : List String) (found : Bool),
      (∀ p ∈ ps, (p == "") = false → (env.regex p).isSome = true) →
      ignorePathGo env path ps found =
        .ok (found || ps.any (fun p => !(p == "") &&
          (match env.regex p with | some m => m path | none => false))) := by
  intro ps
  induction ps with
  | nil => intro found _; simp [ignorePathGo]
  | cons p ps ih =>
    intro found h
    by_cases hp : (p == "") = true
    · simp [ignorePathGo, hp, ih found (fun q hq => h q (by simp [hq]))]
    · have hp' : (p == "") = false := by simpa using hp
      have hc : (env.regex p).isSome = true := h p (by simp) hp'
      cases hr : env.regex p with
      | none => rw [hr] at hc; simp at hc
      | some m =>
        rw [show ignorePathGo env path (p :: ps) found =
              ignorePathGo env path ps (found || m path) by
            simp [ignorePathGo, hp', hr]]
        rw [ih (found || m path) (fun q hq => h q (by simp [hq]))]
        simp [hp', hr, Bool.or_assoc]

theorem updateChainFrom_locate_eq (note : List String → Option (List String))
    (cfg : WaypointSettings) :
    ∀ f, updateChainFrom note cfg f =
      (match locateFrom note cfg f with
       | none => []
       | some (t, g) =>
         (t, g) ::
           (match folderParent g with
            | none => []
            | some r => updateChainFrom note cfg r)) := by
  intro f
  induction f with
  | nil =>
    cases h : folderPointType cfg (note []) <;>
      simp [updateChainFrom, locateFrom, h, folderParent]
  | cons s r ih =>
    cases h : folderPointType cfg (note (s :: r)) with
    | some t => simp [updateChainFrom, locateFrom, h, folderParent]
    | none =>
      simp only [updateChainFrom, locateFrom, h]
      exact ih

theorem updateChainFrom_tails (note : List String → Option (List String))
    (cfg : WaypointSettings) :
    ∀ f, updateChainFrom note cfg f =
      f.tails.filterMap
        (fun g => (folderPointType cfg (note g)).map (fun t => (t, g))) := by
  intro f
  induction f with
  | nil => cases h : folderPointType cfg (note []) <;> simp [updateChainFrom, h]
  | cons s r ih =>
    cases h : folderPointType cfg (note (s :: r)) <;>
      simp [updateChainFrom, h, ih]

/-! ### Claims -/

/-- C3 (amended): in the order produced by the sort of the renderer, every
child with a JavaScript-falsy creation time (absent, or zero) precedes
every other child, and the children with non-falsy creation times appear
in descending timestamp order; the sort is a permutation of the
children.  (The claim as literally stated fails for a child whose
timestamp is `0`, see the counterexample.) -/
theorem sortChildren_order (cs : List Child) :
    (sortChildren cs).Perm cs ∧
    (sortChildren cs).Pairwise (fun a b =>
      ctimeFalsy a = true ∨
      (ctimeFalsy a = false ∧ ctimeFalsy b = false ∧
        (b.ctime.getD 0 : Int) ≤ (a.ctime.getD 0 : Int))) := by
  refine ⟨sortChildren_perm cs, (sortChildren_pairwise cs).imp ?_⟩
  intro a b hab
  simp only [childLe, childCmp, decide_eq_true_eq] at hab
  cases hfa : ctimeFalsy a with
  | true => exact Or.inl rfl
  | false =>
    rw [hfa] at hab
    cases hfb : ctimeFalsy b with
    | true => rw [hfb] at hab; simp at hab
    | false =>
      rw [hfb] at hab
      simp at hab
      exact Or.inr ⟨rfl, rfl, by omega⟩

/-- C3 counterexample: both children carry creation timestamps
(100 and 0), so sorting "descending by creation timestamp" must list the
timestamp-100 child first; the `!a.stat?.ctime` truthiness
test treats the timestamp `0` as missing and puts that child first
instead. -/
theorem sortChildren_zero_ctime_first :
    sortChildren [fileA100, fileB0] = [fileB0, fileA100] ∧
    fileA100.ctime = some 100 ∧ fileB0.ctime = some 0 := by decide

/-- C4 counterexample: with the single configured pattern `"["` (which
does not compile — the `RegExp` constructor throws a `SyntaxError`),
`ignorePath` propagates the exception (`Except.error`) instead of
treating the pattern as non-matching; the claim says the call never
raises. -/
theorem ignorePath_malformed_raises :
    ignorePath witnessEnv { DEFAULT_SETTINGS with ignorePaths := ["["] }
      "Projects/A.md" = .error () := rfl

/-- C4 (amended): provided every non-empty configured pattern compiles,
`ignorePath` returns true exactly when the path matches at least one
non-empty pattern, and empty patterns are skipped; a non-compiling
pattern instead aborts the call with the exception of the constructor. -/
theorem ignorePath_matchAny (env : Env) (cfg : WaypointSettings) (path : String)
    (h : ∀ p ∈ cfg.ignorePaths, (p == "") = false → (env.regex p).isSome = true) :
    ignorePath env cfg path =
      .ok (cfg.ignorePaths.any (fun p => !(p == "") &&
        (match env.regex p with | some m => m path | none => false))) := by
  simpa [ignorePath] using ignorePathGo_ok env path cfg.ignorePaths false h

/-- Witness for the amended theorem of C4 at the default settings: the path
`"_attachments/img.png"` matches the default pattern `"_attachments"`. -/
theorem ignorePath_matchAny_witness :
    ignorePath witnessEnv DEFAULT_SETTINGS "_attachments/img.png" = .ok true := by
  rw [ignorePath_matchAny witnessEnv DEFAULT_SETTINGS "_attachments/img.png"
    (by decide)]
  rfl

/-- C5: for a note in the vault root that is not a folder note and whose
text contains a trigger-flag line, the `detectFlag` scan takes the
root-error branch (no table is generated), the emitted error comment
contains the word of the kind, and `printError` overwrites one flag-bearing
line in place with that comment, leaving every other line unchanged. -/
theorem detectFlag_rootGuard (ft : WaypointType) (flag : String)
    (lines : List String)
    (h : lines.any (fun l => strContains (jsTrim l) flag) = true) :
    detectFlagAction false true flag lines = .printRootError ∧
    strContains (rootErrorMsg ft) (typeName ft) = true ∧
    ∃ (i : Nat) (l : String), lastFlagIdx flag lines = some i ∧
      lines[i]? = some l ∧ strContains (jsTrim l) flag = true ∧
      printErrorLines flag (rootErrorMsg ft) lines =
        some (lines.take i ++ rootErrorMsg ft :: lines.drop (i + 1)) := by
  refine ⟨by simpa using detectFlagAction_of_any false true flag lines h, ?_, ?_⟩
  · cases ft <;> decide
  · obtain ⟨i, l, h1, h2, h3, _⟩ := lastFlagIdx_of_any flag lines h
    exact ⟨i, l, h1, h2, h3, by simp [printErrorLines, h1]⟩

/-- Witness for C5 at a concrete one-line note. -/
theorem detectFlag_rootGuard_witness :
    detectFlagAction false true "%% Waypoint %%" ["%% Waypoint %%"] =
      .printRootError :=
  (detectFlag_rootGuard .waypoint "%% Waypoint %%" ["%% Waypoint %%"]
    (by decide)).1

/-- C6 counterexample: in a note with two trigger-flag lines (indices 0
and 2), the bounds scan of `updateWaypoint` locates index 0 — the first
occurrence — but the scan of `printError` has no `break` and replaces index 2,
the LAST occurrence, so the two operations do not both act on the first
occurrence as claimed. -/
theorem printError_last_occurrence :
    lastFlagIdx "%% Waypoint %%"
        ["%% Waypoint %%", "mid", "%% Waypoint %%"] = some 2 ∧
    findStart (startPred "%% Waypoint %%" BEGIN_WAYPOINT)
        ["%% Waypoint %%", "mid", "%% Waypoint %%"] =
      some (0, "%% Waypoint %%") ∧
    printErrorLines "%% Waypoint %%" "ERROR"
        ["%% Waypoint %%", "mid", "%% Waypoint %%"] =
      some ["%% Waypoint %%", "mid", "ERROR"] := by decide

/-- C6 (amended): the bounds scan of `updateWaypoint` acts on the FIRST line
matching the flag or begin delimiter (everything before it fails the
predicate), while `printError` replaces the LAST flag-bearing line
(everything after it fails the flag test). -/
theorem flagScan_occurrences (ft : WaypointType) (flag err : String)
    (lines : List String) (i j : Nat) (s : String)
    (hf : findStart (startPred flag (beginOf ft)) lines = some (i, s))
    (hl : lastFlagIdx flag lines = some j) :
    (lines[i]? = some s ∧ startPred flag (beginOf ft) s = true ∧
      ∀ x ∈ lines.take i, startPred flag (beginOf ft) x = false) ∧
    (∃ l, lines[j]? = some l ∧ strContains (jsTrim l) flag = true ∧
      ∀ (j2 : Nat) (l2 : String), j < j2 → lines[j2]? = some l2 →
        strContains (jsTrim l2) flag = false) ∧
    printErrorLines flag err lines =
      some (lines.take j ++ err :: lines.drop (j + 1)) := by
  refine ⟨findStart_spec _ lines i s hf, ?_, by simp [printErrorLines, hl]⟩
  rcases lastFlagIdxAux_spec flag lines 0 none with ⟨h1, _⟩ |
    ⟨j2, l, h1, h2, h3, h4⟩
  · rw [lastFlagIdx, h1] at hl
    simp at hl
  · rw [lastFlagIdx, h1] at hl
    simp at hl
    subst hl
    exact ⟨l, h2, h3, h4⟩

/-- Witness for the amended theorem of C6 at the two-flag note. -/
theorem flagScan_occurrences_witness :
    printErrorLines "%% Waypoint %%" "ERR2"
        ["%% Waypoint %%", "mid", "%% Waypoint %%"] =
      some (["%% Waypoint %%", "mid", "%% Waypoint %%"].take 2 ++ "ERR2" ::
        ["%% Waypoint %%", "mid", "%% Waypoint %%"].drop 3) :=
  (flagScan_occurrences .waypoint "%% Waypoint %%" "ERR2"
    ["%% Waypoint %%", "mid", "%% Waypoint %%"] 0 2 "%% Waypoint %%"
    (by decide) (by decide)).2.2

/-- C8: the propagation walk performed by `updateParentPoint` starting at
a folder regenerates exactly the ancestors (the folder itself included)
whose folder note carries a marker, in inner-to-outer order — the walk is
the strict ancestor chain `node.tails`, so it terminates at the vault
root; and when no ancestor carries a marker the call is a no-op. -/
theorem updateParentPoint_chain (note : List String → Option (List String))
    (cfg : WaypointSettings) (node : List String) :
    updateParentPoint note cfg node true =
      node.tails.filterMap
        (fun g => (folderPointType cfg (note g)).map (fun t => (t, g))) ∧
    ((∀ g ∈ node.tails, folderPointType cfg (note g) = none) →
      updateParentPoint note cfg node true = []) := by
  have hmain : updateParentPoint note cfg node true =
      node.tails.filterMap
        (fun g => (folderPointType cfg (note g)).map (fun t => (t, g))) := by
    simp [updateParentPoint, updateChainFrom_tails]
  refine ⟨hmain, fun h => ?_⟩
  rw [hmain]
  apply List.filterMap_eq_nil_iff.mpr
  intro g hg
  rw [h g hg]
  rfl

/-- Witness for C8 at a two-deep folder with no markers anywhere. -/
theorem updateParentPoint_chain_witness :
    updateParentPoint (fun _ => none) DEFAULT_SETTINGS ["Sub", "Top"] true = [] :=
  (updateParentPoint_chain (fun _ => none) DEFAULT_SETTINGS ["Sub", "Top"]).2
    (fun _ _ => rfl)

/-- C9 counterexample: with a folder-note override name configured
(`folderNoteName = "README"`), `isFolderNote` compares only the base name
against the override and never looks at the parent, so a root-level note
named `README` IS classified as a folder note — the claim says the
resolver returns false for root notes in every configuration. -/
theorem isFolderNote_override_root :
    isFolderNote witnessEnv
      { DEFAULT_SETTINGS with folderNoteName := "README" } readmeInRoot = true := rfl

/-- C9 (amended): `folderNoteFor` applied to the vault root returns
`none` in every configuration — in the reserved Outside mode because the
root has no parent, and in Inside mode because the lookup path is
`"//.md"` (root path `"/"`, a slash, the empty root name, `".md"`),
which never resolves in a vault whose stored paths have no empty segment
(the `henv` host invariant).  For `isFolderNote`, the returns-false half
of the claim holds exactly in the no-override configurations: there the
base name is compared against the empty root folder name, and every
indexed note has a non-empty base name (the host does not index
dot-files).  With an override name configured the parent is ignored
entirely and the result is the comparison against the override, so a
root note named like the override IS classified as a folder note,
contrary to the claim — see the counterexample. -/
theorem isFolderNote_modes (env : Env) (cfg : WaypointSettings) (f : NoteCtx)
    (henv : env.isFileAt "//.md" = false) :
    folderNoteFor env cfg rootFolder = none ∧
    (cfg.folderNoteType = INSIDE_FOLDER → cfg.folderNoteName = "" →
      f.parentName = "" → f.basename ≠ "" → isFolderNote env cfg f = false) ∧
    (cfg.folderNoteType = INSIDE_FOLDER → cfg.folderNoteName ≠ "" →
      isFolderNote env cfg f = (f.basename == cfg.folderNoteName)) := by
  refine ⟨?_, fun hin h hpn hb => ?_, fun hin h => ?_⟩
  · by_cases hmode : (cfg.folderNoteType == INSIDE_FOLDER) = true
    · have hpath : env.isFileAt (rootFolder.path ++ "/" ++ rootFolder.name ++
          ".md") = false := by
        have hlit : (rootFolder.path ++ "/" ++ rootFolder.name ++ ".md") =
            "//.md" := rfl
        rw [hlit, henv]
      simp [folderNoteFor, hmode, hpath]
    · have hmode2 : (cfg.folderNoteType == INSIDE_FOLDER) = false := by
        simpa using hmode
      simp [folderNoteFor, hmode2, rootFolder]
  · have ht : (cfg.folderNoteType == INSIDE_FOLDER) = true := by
      rw [hin]; exact beq_self_eq_true _
    have h0 : (cfg.folderNoteName == "") = true := by rw [h]; rfl
    have hb2 : (f.basename == f.parentName) = false := by
      rw [hpn]; simpa using hb
    simp [isFolderNote, ht, h0, hb2]
  · have ht : (cfg.folderNoteType == INSIDE_FOLDER) = true := by
      rw [hin]; exact beq_self_eq_true _
    have h0 : (cfg.folderNoteName == "") = false := by simpa using h
    simp [isFolderNote, ht, h0]

/-- Witness for the amended theorem of C9: in the default configuration a
root-level `README.md` is not a folder note, and the root folder
resolves to no folder note. -/
theorem isFolderNote_modes_witness :
    folderNoteFor witnessEnv DEFAULT_SETTINGS rootFolder = none ∧
    isFolderNote witnessEnv DEFAULT_SETTINGS readmeInRoot = false :=
  ⟨(isFolderNote_modes witnessEnv DEFAULT_SETTINGS readmeInRoot rfl).1,
   (isFolderNote_modes witnessEnv DEFAULT_SETTINGS readmeInRoot rfl).2.1
     rfl rfl rfl (by decide)⟩

theorem jsStartsWith_gt_append (l : String) : jsStartsWith (">" ++ l) ">" = true := by
  simp [jsStartsWith, String.data_append, List.isPrefixOf]

theorem updateWaypointCore_eq (ft : WaypointType) (flag : String)
    (treeLines lines : List String) (i : Nat) (s : String)
    (h0 : findStart (startPred flag (beginOf ft)) lines = some (i, s)) :
    ∃ k, updateWaypointCore ft flag treeLines lines =
      some (lines.take i ++ emittedBlock ft flag treeLines s ++ lines.drop k) := by
  simp only [updateWaypointCore, h0]
  exact ⟨_, rfl⟩

/-- C7 counterexample: a first-time generation whose trigger-flag line is
NOT wrapped in a callout produces a block with no type-label line at all
— the label is only added inside the callout branch, while the claim says
every first-time generation is labelled. -/
theorem updateWaypoint_noncallout_no_label :
    updateWaypointCore .waypoint "%% Waypoint %%" ["T"] ["%% Waypoint %%"] =
      some ["%% Begin Waypoint %%", "T", "", "%% End Waypoint %%"] ∧
    (["%% Begin Waypoint %%", "T", "", "%% End Waypoint %%"].any
      (fun l => strContains l "[!waypoint]")) = false := by decide

/-- C7 (amended): the spliced block is `emittedBlock`; the one-line type
label is prepended exactly when the located start line is both the raw
trigger flag AND wrapped in a callout; whenever the start line is a
callout, every emitted line (label and table included) is prefixed with
`">"`; with no callout no label is added and the block is spliced
verbatim. -/
theorem updateWaypoint_block_shape (ft : WaypointType) (flag : String)
    (treeLines lines : List String) (i : Nat) (s : String) (out : List String)
    (h0 : findStart (startPred flag (beginOf ft)) lines = some (i, s))
    (hout : updateWaypointCore ft flag treeLines lines = some out) :
    (∃ k, out = lines.take i ++ emittedBlock ft flag treeLines s ++
      lines.drop k) ∧
    (jsStartsWith (jsTrim s) ">" = true → strContains (jsTrim s) flag = true →
      emittedBlock ft flag treeLines s =
        (calloutLabel ft :: waypointBlock ft treeLines).map (fun l => ">" ++ l)) ∧
    (jsStartsWith (jsTrim s) ">" = true →
      ∀ l ∈ emittedBlock ft flag treeLines s, jsStartsWith l ">" = true) ∧
    (jsStartsWith (jsTrim s) ">" = false →
      emittedBlock ft flag treeLines s = waypointBlock ft treeLines) := by
  refine ⟨?_, ?_, ?_, ?_⟩
  · obtain ⟨k, hk⟩ := updateWaypointCore_eq ft flag treeLines lines i s h0
    rw [hk] at hout
    rw [Option.some_inj] at hout
    exact ⟨k, hout.symm⟩
  · intro hc hi
    simp [emittedBlock, hc, hi]
  · intro hc l hl
    simp only [emittedBlock, hc, if_true] at hl
    rcases List.mem_map.mp hl with ⟨x, _, rfl⟩
    exact jsStartsWith_gt_append x
  · intro hc
    simp [emittedBlock, hc]

/-- Witness for the amended theorem of C7: a callout-wrapped first-time flag
produces the label line plus the block, every line `">"`-prefixed. -/
theorem updateWaypoint_block_shape_witness :
    emittedBlock .waypoint "%% Waypoint %%" ["T"] "> %% Waypoint %%" =
      (calloutLabel .waypoint :: waypointBlock .waypoint ["T"]).map
        (fun l => ">" ++ l) :=
  (updateWaypoint_block_shape .waypoint "%% Waypoint %%" ["T"]
    ["> %% Waypoint %%"] 0 "> %% Waypoint %%"
    [">[!waypoint]", ">%% Begin Waypoint %%", ">T", ">", ">%% End Waypoint %%"]
    (by decide) (by decide)).2.1 (by decide) (by decide)

/-- C1 counterexample: regenerating an existing callout-wrapped index
block is NOT idempotent.  The end-delimiter scan requires the trimmed
line to EQUAL the end delimiter, but inside a callout that line is
`">%% End Waypoint %%"`, so no end is found, only the single start line
is replaced, and every pass appends one more copy of the block body: the
text after the second pass differs from the text after the first. -/
theorem updateWaypoint_callout_not_idempotent :
    updateWaypointCore .waypoint "%% Waypoint %%" ["T"]
        [">[!waypoint]", ">%% Begin Waypoint %%", ">T", ">",
          ">%% End Waypoint %%"] =
      some [">[!waypoint]", ">%% Begin Waypoint %%", ">T", ">",
        ">%% End Waypoint %%", ">T", ">", ">%% End Waypoint %%"] ∧
    updateWaypointCore .waypoint "%% Waypoint %%" ["T"]
        [">[!waypoint]", ">%% Begin Waypoint %%", ">T", ">",
          ">%% End Waypoint %%", ">T", ">", ">%% End Waypoint %%"] =
      some [">[!waypoint]", ">%% Begin Waypoint %%", ">T", ">",
        ">%% End Waypoint %%", ">T", ">", ">%% End Waypoint %%", ">T", ">",
        ">%% End Waypoint %%"] ∧
    ([">[!waypoint]", ">%% Begin Waypoint %%", ">T", ">",
      ">%% End Waypoint %%", ">T", ">", ">%% End Waypoint %%"] : List String) ≠
      [">[!waypoint]", ">%% Begin Waypoint %%", ">T", ">",
        ">%% End Waypoint %%", ">T", ">", ">%% End Waypoint %%", ">T", ">",
        ">%% End Waypoint %%"] := by decide

/-- C1 (amended): regeneration is idempotent for every note whose located
start line is not callout-wrapped, provided no line of the rendered tree
trims to the end delimiter: if one `updateWaypoint` pass produced `out`,
a second pass with the same rendered tree maps `out` to itself. -/
theorem updateWaypoint_idempotent (ft : WaypointType) (flag : String)
    (treeLines lines : List String) (i : Nat) (s : String) (out : List String)
    (h0 : findStart (startPred flag (beginOf ft)) lines = some (i, s))
    (h1 : jsStartsWith (jsTrim s) ">" = false)
    (h5 : ∀ t ∈ treeLines, (jsTrim t == endOf ft) = false)
    (hout : updateWaypointCore ft flag treeLines lines = some out) :
    updateWaypointCore ft flag treeLines out = some out := by
  obtain ⟨hget, hps, hpre⟩ := findStart_spec _ lines i s h0
  have hilt : i < lines.length := by
    rcases List.getElem?_eq_some_iff.mp hget with ⟨hlt, _⟩
    exact hlt
  have hlen : (lines.take i).length = i := by
    rw [List.length_take]
    omega
  obtain ⟨k, hk⟩ := updateWaypointCore_eq ft flag treeLines lines i s h0
  rw [hk] at hout
  rw [Option.some_inj] at hout
  have hblk : emittedBlock ft flag treeLines s = waypointBlock ft treeLines := by
    simp [emittedBlock, h1]
  rw [hblk] at hout
  subst hout
  set pre := lines.take i with hpredef
  set tail := lines.drop k with htaildef
  have hassoc : pre ++ waypointBlock ft treeLines ++ tail =
      pre ++ beginOf ft :: (treeLines ++ [""] ++ endOf ft :: tail) := by
    simp [waypointBlock]
  have hfs2 : findStart (startPred flag (beginOf ft))
      (pre ++ waypointBlock ft treeLines ++ tail) = some (i, beginOf ft) := by
    rw [hassoc, findStart_append _ pre _ _ hpre (startPred_beginOf flag ft), hlen]
  have hdrop : (pre ++ waypointBlock ft treeLines ++ tail).drop (i + 1) =
      treeLines ++ [""] ++ endOf ft :: tail := by
    rw [hassoc]
    rw [show pre ++ beginOf ft :: (treeLines ++ [""] ++ endOf ft :: tail) =
        (pre ++ [beginOf ft]) ++ (treeLines ++ [""] ++ endOf ft :: tail) by simp]
    rw [show i + 1 = (pre ++ [beginOf ft]).length by simp [hlen]]
    exact List.drop_left _ _
  have hend : findEndIdx (endOf ft)
      ((pre ++ waypointBlock ft treeLines ++ tail).drop (i + 1)) =
      some (treeLines.length + 1) := by
    rw [hdrop]
    rw [show treeLines ++ [""] ++ endOf ft :: tail =
        (treeLines ++ [""]) ++ endOf ft :: tail by simp]
    rw [findEndIdx_append _ _ _ _ ?_ (endOf_trim_beq ft)]
    · simp
    · intro x hx
      rcases List.mem_append.mp hx with hx | hx
      · exact h5 x hx
      · rw [List.mem_singleton.mp hx]
        exact blank_trim_ne_endOf ft
  have hblk2 : emittedBlock ft flag treeLines (beginOf ft) =
      waypointBlock ft treeLines := by
    simp [emittedBlock, beginOf_not_callout ft]
  simp only [updateWaypointCore, hfs2, hend, Option.map_some', hblk2]
  have harith : i + (i + 1 + (treeLines.length + 1) - i + 1) =
      i + (treeLines.length + 3) := by omega
  rw [harith]
  have htake : (pre ++ waypointBlock ft treeLines ++ tail).take i = pre := by
    rw [List.append_assoc, show i = pre.length from hlen.symm]
    exact List.take_left _ _
  have hdrop2 : (pre ++ waypointBlock ft treeLines ++ tail).drop
      (i + (treeLines.length + 3)) = tail := by
    rw [show i + (treeLines.length + 3) =
        (pre ++ waypointBlock ft treeLines).length by simp [waypointBlock, hlen]]
    exact List.drop_left _ _
  rw [htake, hdrop2]

/-- Witness for the amended theorem of C1: one concrete pass creates the
block, the second pass reproduces it byte for byte. -/
theorem updateWaypoint_idempotent_witness :
    updateWaypointCore .waypoint "%% Waypoint %%" ["|row|"]
        ["%% Begin Waypoint %%", "|row|", "", "%% End Waypoint %%"] =
      some ["%% Begin Waypoint %%", "|row|", "", "%% End Waypoint %%"] :=
  updateWaypoint_idempotent .waypoint "%% Waypoint %%" ["|row|"]
    ["%% Begin Waypoint %%"] 0 "%% Begin Waypoint %%"
    ["%% Begin Waypoint %%", "|row|", "", "%% End Waypoint %%"]
    (by decide) (by decide) (by decide) (by decide)

/-- C2: a (non-callout) note consisting of just the trigger-flag line is
rewritten, in one pass, into exactly the begin/end-delimited block: the
begin delimiter occurs on exactly one line (the first), the end delimiter
on exactly one line (the last), and no line of the result contains the
trigger flag any more.  The cleanliness hypotheses say the flag is
non-empty and the rendered tree does not itself mention the flag or the
delimiters. -/
theorem updateWaypoint_roundTrip (ft : WaypointType) (flag fl : String)
    (treeLines : List String)
    (hfl : strContains (jsTrim fl) flag = true)
    (hnc : jsStartsWith (jsTrim fl) ">" = false)
    (hBt : ∀ t ∈ treeLines, strContains t (beginOf ft) = false)
    (hEt : ∀ t ∈ treeLines, strContains t (endOf ft) = false)
    (hFt : ∀ t ∈ treeLines, strContains t flag = false)
    (hBf : strContains (beginOf ft) flag = false)
    (hEf : strContains (endOf ft) flag = false)
    (hef : strContains "" flag = false) :
    updateWaypointCore ft flag treeLines [fl] =
      some (waypointBlock ft treeLines) ∧
    (waypointBlock ft treeLines).countP
      (fun l => strContains l (beginOf ft)) = 1 ∧
    (waypointBlock ft treeLines).countP
      (fun l => strContains l (endOf ft)) = 1 ∧
    (waypointBlock ft treeLines).head? = some (beginOf ft) ∧
    (waypointBlock ft treeLines).getLast? = some (endOf ft) ∧
    ∀ l ∈ waypointBlock ft treeLines, strContains l flag = false := by
  have hBB : strContains (beginOf ft) (beginOf ft) = true := by
    cases ft <;> decide
  have hEE : strContains (endOf ft) (endOf ft) = true := by
    cases ft <;> decide
  have heB : strContains "" (beginOf ft) = false := by
    cases ft <;> decide
  have hEB : strContains (endOf ft) (beginOf ft) = false := by
    cases ft <;> decide
  have hBE : strContains (beginOf ft) (endOf ft) = false := by
    cases ft <;> decide
  have heE : strContains "" (endOf ft) = false := by
    cases ft <;> decide
  have hp : startPred flag (beginOf ft) fl = true := by
    simp [startPred, hfl]
  refine ⟨?_, ?_, ?_, rfl, ?_, ?_⟩
  · simp [updateWaypointCore, findStart, hp, findEndIdx, emittedBlock, hnc]
  · have hts : treeLines.countP (fun l => strContains l (beginOf ft)) = 0 :=
      List.countP_eq_zero.mpr (fun a ha => by simp [hBt a ha])
    simp [waypointBlock, List.countP_cons, List.countP_append, hts, hBB,
      hEB, heB]
  · have hts : treeLines.countP (fun l => strContains l (endOf ft)) = 0 :=
      List.countP_eq_zero.mpr (fun a ha => by simp [hEt a ha])
    simp [waypointBlock, List.countP_cons, List.countP_append, hts, hEE,
      hBE, heE]
  · rw [show waypointBlock ft treeLines =
        (beginOf ft :: (treeLines ++ [""])) ++ [endOf ft] by
      simp [waypointBlock]]
    exact List.getLast?_concat _
  · intro l hl
    simp only [waypointBlock, List.mem_cons, List.mem_append,
      List.mem_singleton] at hl
    rcases hl with (rfl | hl) | (rfl | rfl | h0)
    · exact hBf
    · exact hFt l hl
    · exact hef
    · exact hEf
    · simp at h0

/-- Witness for C2 at the default waypoint flag and a one-row tree. -/
theorem updateWaypoint_roundTrip_witness :
    updateWaypointCore .waypoint "%% Waypoint %%" ["|row|"]
        ["%% Waypoint %%"] = some (waypointBlock .waypoint ["|row|"]) :=
  (updateWaypoint_roundTrip .waypoint "%% Waypoint %%" "%% Waypoint %%"
    ["|row|"] (by decide) (by decide) (by decide) (by decide) (by decide)
    (by decide) (by decide) (by decide)).1

/-- C10: when the path of the render target folder matches a (compiling)
ignore pattern, `getFileTreeRepresentation` returns `null`, yet
`updateWaypoint` carries on: the template literal interpolates `null` as
the string `"null"` and a begin/end block whose body is the single line
`"null"` is spliced into the note. -/
theorem ignored_folder_null_block (env : Env) (cfg : WaypointSettings)
    (ft : WaypointType) (parent : Child) (children : List Child)
    (lines : List String) (i : Nat) (s : String)
    (hig : ignorePath env cfg parent.path = .ok true)
    (hs : findStart (startPred (getWaypointFlag cfg ft) (beginOf ft)) lines =
      some (i, s))
    (hnc : jsStartsWith (jsTrim s) ">" = false) :
    getFileTreeRepresentation env cfg parent parent children = .ok none ∧
    ∃ k, updateWaypointRun env cfg ft parent children lines =
      .ok (some (lines.take i ++ [beginOf ft, "null", "", endOf ft] ++
        lines.drop k)) := by
  have htree : getFileTreeRepresentation env cfg parent parent children =
      .ok none := by
    simp only [getFileTreeRepresentation, hig]
    rfl
  refine ⟨htree, ?_⟩
  have hrun : updateWaypointRun env cfg ft parent children lines =
      .ok (updateWaypointText ft (getWaypointFlag cfg ft) none lines) := by
    simp only [updateWaypointRun, htree]
    rfl
  rw [hrun]
  have hnull : splitLines ((none : Option String).getD "null") = ["null"] := by
    decide
  rw [updateWaypointText, hnull]
  obtain ⟨k, hk⟩ :=
    updateWaypointCore_eq ft (getWaypointFlag cfg ft) ["null"] lines i s hs
  refine ⟨k, ?_⟩
  rw [hk]
  have : emittedBlock ft (getWaypointFlag cfg ft) ["null"] s =
      [beginOf ft, "null", "", endOf ft] := by
    simp [emittedBlock, hnc, waypointBlock]
  rw [this]

/-- Witness for C10: the default ignore pattern `"_attachments"` matches
the folder `_attachments`, whose representation is `null`. -/
theorem ignored_folder_null_block_witness :
    getFileTreeRepresentation witnessEnv DEFAULT_SETTINGS attachmentsFolder
      attachmentsFolder [] = .ok none :=
  (ignored_folder_null_block witnessEnv DEFAULT_SETTINGS .waypoint
    attachmentsFolder [] ["%% Waypoint %%"] 0 "%% Waypoint %%"
    rfl (by decide) (by decide)).1
